import Mathlib

/-!
A shallow embedding of the core of the Rule-Engine-with-AST repository
(`rule_engine/rule_engine.py` and the AST (de)serialization in `app.py`),
together with theorems settling the specification claims.

Machine model notes:
* Python strings are modelled as `List Char` / `String` (Lean strings are
  lists of unicode scalar values, as are Python strings).
* Python `ValueError` / `IndexError` exceptions are modelled by the `Err`
  type below; fallible functions return `Except Err _`.
* Python numbers (int/float) occurring in records and literals are modelled
  as rationals `ℚ`; comparisons between them are exact for the integer and
  decimal literals the rule grammar produces.
* The two regular expressions of the source are compiled by hand into
  deterministic scanners.  Both patterns are backtracking-free in the
  relevant sense: every alternative's success is decided by its first
  character (plus, for quoted literals, the presence of a closing quote),
  greedy sub-patterns are followed only by characters disjoint from the
  repeated class, so the Python `re` backtracking engine never revisits a
  greedy choice that the scanners below commit to.
-/

/-- Python `\s` / `str.strip` whitespace on ASCII input:
space (32), tab (9), newline (10), vertical tab (11), form feed (12),
carriage return (13). -/
def isPySpace (c : Char) : Bool :=
  c.toNat = 32 || (9 ≤ c.toNat && c.toNat ≤ 13)

/-- `[a-zA-Z_]` — first character of an identifier. -/
def isAlphaUnd (c : Char) : Bool :=
  (97 ≤ c.toNat && c.toNat ≤ 122) || (65 ≤ c.toNat && c.toNat ≤ 90) || c.toNat = 95

/-- `[0-9]`. -/
def isDigitCh (c : Char) : Bool :=
  48 ≤ c.toNat && c.toNat ≤ 57

/-- `[a-zA-Z0-9_.]` — continuation character of an identifier (field path). -/
def isIdentCont (c : Char) : Bool :=
  isAlphaUnd c || isDigitCh c || c.toNat = 46

/-- `[()<>!=]` — the character class of the tokenizer's bracket/comparator
alternative: `(` 40, `)` 41, `<` 60, `>` 62, `!` 33, `=` 61. -/
def isCmpParen (c : Char) : Bool :=
  c.toNat = 40 || c.toNat = 41 || c.toNat = 60 || c.toNat = 62 ||
  c.toNat = 33 || c.toNat = 61

/-- `[<>!=]` — the comparator class used by `parse`'s lookahead and by
`evaluate_condition`'s pattern. -/
def isCmpChar (c : Char) : Bool :=
  c.toNat = 60 || c.toNat = 62 || c.toNat = 33 || c.toNat = 61

/-- Length of the maximal prefix of characters satisfying `p`
(the span consumed by a greedy `[class]*`). -/
def chRun (p : Char → Bool) : List Char → Nat
  | [] => 0
  | c :: cs => if p c then chRun p cs + 1 else 0

/-- Greedy `[class]*` returning the consumed span and the remainder. -/
def takeRun (p : Char → Bool) : List Char → List Char × List Char
  | [] => ([], [])
  | c :: cs =>
    if p c then (c :: (takeRun p cs).1, (takeRun p cs).2)
    else ([], c :: cs)

/-- Scanner for the tokenizer's `[^q]*q` tail of a quoted literal: length up
to and including the first occurrence of the quote `q` (a negated character
class, so newlines are allowed), or `none` when the quote is unmatched. -/
def tokQuoteScan (q : Nat) : List Char → Option Nat
  | [] => none
  | c :: cs =>
    if c.toNat = q then some 1
    else (tokQuoteScan q cs).map (· + 1)

/--
`lexMatch cs` is the length of the match of the tokenizer's pattern
`\s+|AND|OR|[()<>!=]=?|[a-zA-Z_][a-zA-Z0-9_.]*|'[^']*'|"[^"]*"`
anchored at the head of `cs` (`none` when no alternative matches).
Alternatives are tried in the pattern's order; each is greedy.
-/
def lexMatch : List Char → Option Nat
  | [] => none
  | c :: cs =>
    if isPySpace c then some (chRun isPySpace cs + 1)
    else if c.toNat = 65 && decide (cs.take 2 = [Char.ofNat 78, Char.ofNat 68]) then some 3
    else if c.toNat = 79 && decide (cs.take 1 = [Char.ofNat 82]) then some 2
    else if isCmpParen c then
      some (if cs.head? = some (Char.ofNat 61) then 2 else 1)
    else if isAlphaUnd c then some (chRun isIdentCont cs + 1)
    else if c.toNat = 39 then (tokQuoteScan 39 cs).map (· + 1)
    else if c.toNat = 34 then (tokQuoteScan 34 cs).map (· + 1)
    else none

/-- Leftmost match of the tokenizer pattern: offset of the first position at
which `lexMatch` succeeds, together with the match length. -/
def findMatch : List Char → Option (Nat × Nat)
  | [] => none
  | c :: cs =>
    match lexMatch (c :: cs) with
    | some l => some (0, l)
    | none =>
      match findMatch cs with
      | some (o, l) => some (o + 1, l)
      | none => none

/--
`re.split` with a capturing group: the result interleaves the unmatched
spans between matches with the matched spans themselves.  `fuel` bounds the
number of matches; `tokenize` supplies `cs.length`, which suffices because
every match consumes at least one character.
-/
def splitAux : Nat → List Char → List (List Char)
  | 0, cs => [cs]
  | fuel + 1, cs =>
    match findMatch cs with
    | none => [cs]
    | some (o, l) =>
      cs.take o :: (cs.drop o).take l :: splitAux fuel (cs.drop (o + l))

/-- The filter `if token.strip()`: keep a span iff it contains a
non-whitespace character. -/
def keepToken (cs : List Char) : Bool :=
  cs.any (fun c => ! isPySpace c)

/--
`tokenize(rule_string)`:
`[token for token in re.split(pattern, rule_string) if token.strip()]`.
Note that `re.split` also returns the text *between* matches, so unmatched
non-blank spans (numeric literals, stray junk such as `++`) become tokens.
-/
def tokenize (s : String) : List String :=
  ((splitAux s.data.length s.data).filter keepToken).map String.mk

/-- The two quote characters, kept as named definitions. -/
def squoteCh : Char := Char.ofNat 39

def dquoteCh : Char := Char.ofNat 34

/-- A single-quote as a one-character string. -/
def sQuote : String := String.mk [squoteCh]

/--
Failures of the engine.  All constructors except `indexError` model Python
`ValueError`s (the messages of the source are reflected in the constructor
names; `create_rule` re-raises parse `ValueError`s with an
`"Error parsing rule: ..."` prefix, which changes only the message text and
is therefore not modelled separately).  `indexError` models the untyped
`IndexError` raised by `operators.pop()` on an empty list, which is *not* a
`ValueError` and is not caught by `except ValueError` handlers.
-/
inductive Err where
  | emptyRule
  | noTokens
  | incompleteBeforeParen
  | incompleteDuringOp
  | invalidToken (t : String)
  | incompleteAtEnd
  | invalidExpression
  | indexError
  | invalidCondition (operand : String)
  | fieldNotFound (field : String)
  | unsupportedOperator (op : String)
  | badNumericLiteral (value : String)
  | missingKeys
deriving DecidableEq, Repr

/-- Python error taxonomy: every engine failure is a `ValueError` except the
`IndexError` escaping from `operators.pop()` on an empty stack. -/
def Err.isValueError : Err → Bool
  | .indexError => false
  | _ => true

/--
The AST node of `rule_engine.py`.  Python's `left`/`right` attributes hold
either a `Node` or `None`; the `null` constructor models `None`, so a Python
variable of type `Node | None` is a plain `Node` here.  `node_type` and
`value` are the constructor's string attributes.
-/
inductive Node where
  | null
  | mk (node_type : String) (value : String) (left : Node) (right : Node)
deriving DecidableEq, Repr

/-- Operator precedence table of `parse`: `{'AND': 1, 'OR': 0}`. -/
def prec (op : String) : Nat :=
  if op = "AND" then 1 else 0

/-- `re.match(r"[a-zA-Z_][a-zA-Z0-9_.]*", token)`: a prefix match, so it
succeeds iff the token's first character is in `[a-zA-Z_]`. -/
def identStartTok (t : String) : Bool :=
  match t.data with
  | [] => false
  | c :: _ => isAlphaUnd c

/-- `re.match(r"[<>!=]+", token)`: a prefix match, so it succeeds iff the
token's first character is in `[<>!=]`. -/
def cmpStartTok (t : String) : Bool :=
  match t.data with
  | [] => false
  | c :: _ => isCmpChar c

/--
The `)` branch of `parse`: pop and reduce operator-stack entries until the
matching `(`.  Faithfully to the source, when the operator stack empties
without a `(` the final `operators.pop()` raises an `IndexError`
(`Err.indexError`), not a `ValueError`.
-/
def collapseParen : List Node → List String → Except Err (List Node × List String)
  | _, [] => .error .indexError
  | output, op :: ops =>
    if op = "(" then .ok (output, ops)
    else
      match output with
      | right :: left :: rest =>
        collapseParen (Node.mk "operator" op left right :: rest) ops
      | _ => .error .incompleteBeforeParen

/--
The `AND`/`OR` branch of `parse`: while the top of the operator stack is an
operator of precedence `≥` the incoming token's, reduce.
-/
def collapsePrec (tokPrec : Nat) : List Node → List String →
    Except Err (List Node × List String)
  | output, [] => .ok (output, [])
  | output, op :: ops =>
    if (op = "AND" || op = "OR") && decide (tokPrec ≤ prec op) then
      match output with
      | right :: left :: rest =>
        collapsePrec tokPrec (Node.mk "operator" op left right :: rest) ops
      | _ => .error .incompleteDuringOp
    else .ok (output, op :: ops)

/--
The final `while operators:` loop of `parse`: reduce every remaining
operator-stack entry (including, faithfully, a leftover `(`, which the
source turns into an operator node whose value is `"("`).
-/
def collapseEnd : List Node → List String → Except Err (List Node)
  | output, [] => .ok output
  | output, op :: ops =>
    match output with
    | right :: left :: rest =>
      collapseEnd (Node.mk "operator" op left right :: rest) ops
    | _ => .error .incompleteAtEnd

/--
Main token loop of `parse` (shunting-yard, one left-to-right pass).
A leaf condition is recognized by a three-token lookahead: an
identifier-starting token followed by a comparator-starting token and any
third token; the three are rejoined with single spaces into the operand's
value.  Any other unrecognized token is a `ValueError`.
-/
def parseLoop : Nat → List String → List Node → List String → Except Err (List Node)
  | _, [], output, operators => collapseEnd output operators
  | 0, _ :: _, output, operators => collapseEnd output operators
  | fuel + 1, t :: ts, output, operators =>
    if t = "(" then parseLoop fuel ts output (t :: operators)
    else if t = ")" then
      match collapseParen output operators with
      | .error e => .error e
      | .ok (o, ops) => parseLoop fuel ts o ops
    else if t = "AND" || t = "OR" then
      match collapsePrec (prec t) output operators with
      | .error e => .error e
      | .ok (o, ops) => parseLoop fuel ts o (t :: ops)
    else
      match ts with
      | t1 :: t2 :: ts' =>
        if identStartTok t && cmpStartTok t1 then
          parseLoop fuel ts'
            (Node.mk "operand" (t ++ " " ++ t1 ++ " " ++ t2) Node.null Node.null :: output)
            operators
        else .error (.invalidToken t)
      | _ => .error (.invalidToken t)

/-- `parse(tokens)`: run the loop, then demand exactly one node on the
output stack.  The `fuel` argument of `parseLoop` only makes the recursion
structural: every loop iteration consumes at least one token, so
`tokens.length + 1` steps always reach the `[]` case and the `0` fallback
(which mirrors the `[]` case) is unreachable. -/
def parse (tokens : List String) : Except Err Node :=
  match parseLoop (tokens.length + 1) tokens [] [] with
  | .error e => .error e
  | .ok [ast] => .ok ast
  | .ok _ => .error .invalidExpression

/--
`create_rule(rule_string)`: reject empty input and token-less input, then
parse.  The source wraps a parse `ValueError` in a new `ValueError` with an
`"Error parsing rule: "` prefix (same error, longer message); an
`IndexError` is not caught and propagates unchanged.
-/
def create_rule (s : String) : Except Err Node :=
  if s.data = [] then .error .emptyRule
  else
    match tokenize s with
    | [] => .error .noTokens
    | tokens => parse tokens

/-- Fold step of `combine_rules`: `ValueError`s from `create_rule` are
logged and skipped; an `IndexError` is not caught and aborts the batch. -/
def combineGo : List String → Node → Except Err Node
  | [], acc => .ok acc
  | r :: rs, acc =>
    match create_rule r with
    | .ok ast =>
      combineGo rs (if acc = Node.null then ast else Node.mk "operator" "OR" acc ast)
    | .error e =>
      if e.isValueError then combineGo rs acc
      else .error e

/--
`combine_rules(rules)`: `None` for an empty list; otherwise fold the rules
that parse into a left-leaning `OR` tree, skipping (per-rule) those whose
`create_rule` raises a `ValueError`.  The result is `Node.null` when no
rule parses.
-/
def combine_rules (rules : List String) : Except Err Node :=
  match rules with
  | [] => .ok Node.null
  | _ => combineGo rules Node.null

/--
Scanner for the condition pattern's lazy quoted literal `q.*?q`: the span up
to and including the *first* closing quote (lazy `.*?`), failing when a
newline (which `.` does not match) or the end of input precedes it.
Returns the consumed span (including the closing quote) and the remainder.
-/
def condQuoteScan (q : Nat) : List Char → Option (List Char × List Char)
  | [] => none
  | c :: cs =>
    if c.toNat = q then some ([c], cs)
    else if c.toNat = 10 then none
    else (condQuoteScan q cs).map (fun r => (c :: r.1, r.2))

/--
Group 3 of the condition pattern: `\d+(\.\d+)?|'.*?'|".*?"` — a number
(digits with an optional dot-digits fraction, both greedy) or a lazily
quoted string.  Returns the matched literal text (quotes included) and the
remainder.  Note that when the head character is a digit the match always
succeeds: the fractional part is optional.
-/
def matchLit : List Char → Option (List Char × List Char)
  | [] => none
  | c :: rest =>
    if isDigitCh c then
      match takeRun isDigitCh rest with
      | (ds, p :: e :: r2) =>
        if p.toNat = 46 && isDigitCh e then
          match takeRun isDigitCh r2 with
          | (fs, r3) => some (c :: ds ++ p :: e :: fs, r3)
        else some (c :: ds, p :: e :: r2)
      | (ds, r1) => some (c :: ds, r1)
    else if c.toNat = 39 then
      (condQuoteScan 39 rest).map (fun r => (c :: r.1, r.2))
    else if c.toNat = 34 then
      (condQuoteScan 34 rest).map (fun r => (c :: r.1, r.2))
    else none

/-- The comparator group `[<>!=]=?` of the condition pattern, after its
first character `d` has been recognized: greedily take a following `=`. -/
def matchOp (d : Char) (r3 : List Char) : List Char × List Char :=
  match r3 with
  | e :: r4 => if e.toNat = 61 then ([d, e], r4) else ([d], r3)
  | [] => ([d], [])

/--
`re.match(r"([a-zA-Z_][a-zA-Z0-9_.]*)\s*([<>!=]=?)\s*(...)", operand)`
compiled to a deterministic scanner: identifier group, greedy whitespace,
comparator (`matchOp`), greedy whitespace, literal group (`matchLit`).
Being a `re.match` (not `fullmatch`), the pattern is anchored only at the
start: the remainder after the literal is returned and ignored by the
caller.  Returns `(field, comparator, literal, rest)`.

Determinism: the identifier's continuation class, whitespace, and the
comparator class are pairwise disjoint, and no literal alternative starts
with `=` or whitespace, so the backtracking the Python engine could attempt
over the greedy groups never succeeds where this scanner fails.
-/
def matchCondition : List Char → Option (List Char × List Char × List Char × List Char)
  | [] => none
  | c :: rest =>
    if isAlphaUnd c then
      match takeRun isPySpace (takeRun isIdentCont rest).2 with
      | (_, []) => none
      | (_, d :: r3) =>
        if isCmpChar d then
          match matchLit (takeRun isPySpace (matchOp d r3).2).2 with
          | some (v, r6) => some (c :: (takeRun isIdentCont rest).1, (matchOp d r3).1, v, r6)
          | none => none
        else none
    else none

/-- A scalar value of an evaluation record: Python numbers
(`int`/`float`, modelled as `ℚ`) or strings. -/
inductive Value where
  | num (q : ℚ)
  | str (s : String)
deriving DecidableEq, Repr

/-- The evaluation record: a string-keyed mapping of scalars
(`data: dict`), modelled as a first-match association list. -/
abbrev Record := List (String × Value)

/-- `field not in data` / `data[field]`. -/
def lookupRecord : Record → String → Option Value
  | [], _ => none
  | (k, v) :: rest, f => if k = f then some v else lookupRecord rest f

/-- Digits to a natural number, most significant first. -/
def natOfDigits (cs : List Char) : Nat :=
  cs.foldl (fun a c => a * 10 + (c.toNat - 48)) 0

/-- Strip Python whitespace from both ends (`int`/`float` accept padded
input). -/
def stripPySpaces (cs : List Char) : List Char :=
  ((cs.dropWhile isPySpace).reverse.dropWhile isPySpace).reverse

/-- Sign-less body of `int(value)`: a non-empty digit string. -/
def pyIntBody (cs : List Char) : Option Int :=
  match cs with
  | [] => none
  | _ =>
    if cs.all isDigitCh then some (Int.ofNat (natOfDigits cs)) else none

/--
Python `int(value)` on the strings reachable here: optional surrounding
whitespace, an optional sign, then decimal digits.  (Underscore digit
grouping, also accepted by `int`, is not modelled; no literal the rule
grammar produces contains one.)
-/
def pyInt (cs : List Char) : Option Int :=
  match stripPySpaces cs with
  | [] => none
  | c :: rest =>
    if c.toNat = 43 then pyIntBody rest
    else if c.toNat = 45 then (pyIntBody rest).map (fun n => -n)
    else pyIntBody (c :: rest)

/-- Sign-less body of `float(value)` in its decimal forms:
`d+`, `d+.d*` or `.d+`. -/
def pyFloatBody (cs : List Char) : Option ℚ :=
  let ip := takeRun isDigitCh cs
  match ip.2 with
  | [] => if ip.1 = [] then none else some (natOfDigits ip.1 : ℚ)
  | p :: r2 =>
    if p.toNat = 46 then
      let fp := takeRun isDigitCh r2
      if fp.2 = [] && !(ip.1 = [] && fp.1 = []) then
        some ((natOfDigits ip.1 : ℚ) + (natOfDigits fp.1 : ℚ) / (10 ^ fp.1.length))
      else none
    else none

/--
Python `float(value)` on its decimal forms: optional surrounding
whitespace, optional sign, digits with an optional fractional part.
(Exponent and `inf`/`nan` forms, also accepted by `float`, are not
modelled; no literal the rule grammar produces contains them.)
-/
def pyFloat (cs : List Char) : Option ℚ :=
  match stripPySpaces cs with
  | [] => none
  | c :: rest =>
    if c.toNat = 43 then pyFloatBody rest
    else if c.toNat = 45 then (pyFloatBody rest).map (fun q => -q)
    else pyFloatBody (c :: rest)

/-- The numeric comparison dispatch table of `evaluate_condition`. -/
def applyCmpNum (op : String) (x y : ℚ) : Except Err Bool :=
  if op = ">" then .ok (decide (y < x))
  else if op = "<" then .ok (decide (x < y))
  else if op = "==" then .ok (decide (x = y))
  else if op = "!=" then .ok (decide (¬ x = y))
  else if op = ">=" then .ok (decide (y ≤ x))
  else if op = "<=" then .ok (decide (x ≤ y))
  else .error (.unsupportedOperator op)

/-- The same dispatch table applied to two Python strings (lexicographic
code-point order, as in CPython). -/
def applyCmpStr (op : String) (x y : String) : Except Err Bool :=
  if op = ">" then .ok (decide (y < x))
  else if op = "<" then .ok (decide (x < y))
  else if op = "==" then .ok (decide (x = y))
  else if op = "!=" then .ok (decide (¬ x = y))
  else if op = ">=" then .ok (! decide (x < y))
  else if op = "<=" then .ok (! decide (y < x))
  else .error (.unsupportedOperator op)

/-- `value.startswith(("'", '"')) and value.endswith(("'", '"'))`. -/
def quotedForm (v : List Char) : Bool :=
  match v.head?, v.getLast? with
  | some a, some b =>
    (a.toNat = 39 || a.toNat = 34) && (b.toNat = 39 || b.toNat = 34)
  | _, _ => false

/--
Body of `evaluate_condition` after the regex has produced the three groups
`(field, operator, value)`: field lookup (a missing field is an error,
checked *before* any literal conversion), quote stripping, numeric
conversion driven by the record value's type (`float` if the stripped
literal contains a dot, else `int` — either can fail on a quoted
non-numeric literal), `=` normalization, and dispatch.
-/
def evalCond3 (field op value : List Char) (data : Record) : Except Err Bool :=
  match lookupRecord data (String.mk field) with
  | none => .error (.fieldNotFound (String.mk field))
  | some fv =>
    let v1 := if quotedForm value then (value.drop 1).dropLast else value
    let op1 := if String.mk op = "=" then "==" else String.mk op
    match fv with
    | .num q =>
      match (if v1.contains (Char.ofNat 46) then pyFloat v1
             else (pyInt v1).map (fun n => (n : ℚ))) with
      | none => .error (.badNumericLiteral (String.mk v1))
      | some lit => applyCmpNum op1 q lit
    | .str s => applyCmpStr op1 s (String.mk v1)

/--
`evaluate_condition(operand, data)`: match the condition pattern against
the operand text (an anchored prefix match — trailing text after the
literal is ignored), then evaluate the three groups against the record.
-/
def evaluate_condition (operand : String) (data : Record) : Except Err Bool :=
  match matchCondition operand.data with
  | none => .error (.invalidCondition operand)
  | some (f, op, v, _) => evalCond3 f op v data

/--
`evaluate_rule(ast, data)`: `None` (and any non-`Node`) evaluates to
`False`; an operator node evaluates *both* children before combining (an
exception from the left child propagates before the right child runs, and
one from the right propagates regardless of the left's value); an operator
value other than `AND`/`OR` falls through to `False`, as does a node type
other than `operator`/`operand`.
-/
def evaluate_rule (ast : Node) (data : Record) : Except Err Bool :=
  match ast with
  | .null => .ok false
  | .mk t v l r =>
    if t = "operator" then
      match evaluate_rule l data with
      | .error e => .error e
      | .ok lb =>
        match evaluate_rule r data with
        | .error e => .error e
        | .ok rb =>
          if v = "AND" then .ok (lb && rb)
          else if v = "OR" then .ok (lb || rb)
          else .ok false
    else if t = "operand" then evaluate_condition v data
    else .ok false

/--
The JSON attribute map of a serialized node.  `mk` is a dict whose four
possible keys are each `Option`al (`none`/`absent` = key not present);
`absent` stands for the absence of a subdict altogether (what
`data.get('left')` returns as `None`).
-/
inductive NodeDict where
  | absent
  | mk (node_type : Option String) (value : Option String)
       (left : NodeDict) (right : NodeDict)
deriving DecidableEq, Repr

/--
`Node.to_dict`: emit `node_type` and `value` always, `left`/`right` only
when the child is present (`if self.left:` — a `Node` instance is always
truthy, `None` is falsy).  `Node.null` maps to `absent` (no key emitted).
-/
def to_dict : Node → NodeDict
  | .null => .absent
  | .mk t v l r => .mk (some t) (some v) (to_dict l) (to_dict r)

/-- Python falsiness of what `data.get('left')` returns: the key is absent
(`None`) or its value is an empty dict. -/
def dictFalsy : NodeDict → Bool
  | .absent => true
  | .mk t v l r =>
    t.isNone && v.isNone &&
    (match l with | .absent => true | _ => false) &&
    (match r with | .absent => true | _ => false)

/--
`json_to_node(data)` from `app.py`: fail unless both `node_type` and
`value` keys are present, then recurse into `left`/`right` when
`data.get(...)` is truthy (an absent key, like an empty subdict, yields a
`None` child).  Applying it to `absent` (i.e. to `None`) is also an error.
-/
def json_to_node : NodeDict → Except Err Node
  | .absent => .error .missingKeys
  | .mk t v l r =>
    match t, v with
    | some nt, some vv =>
      match (if dictFalsy l then .ok Node.null else json_to_node l : Except Err Node) with
      | .error e => .error e
      | .ok ln =>
        match (if dictFalsy r then .ok Node.null else json_to_node r : Except Err Node) with
        | .error e => .error e
        | .ok rn => .ok (Node.mk nt vv ln rn)
    | _, _ => .error .missingKeys

/-- `Except` success as a boolean. -/
def exceptOk {α : Type} : Except Err α → Bool
  | .ok _ => true
  | .error _ => false

/-- The rule string of the concrete scenario (claim C1). -/
def c1rule : String :=
  "((age > 30 AND department == " ++ sQuote ++ "Sales" ++ sQuote ++
  ") OR (age < 25 AND department == " ++ sQuote ++ "Marketing" ++ sQuote ++
  ")) AND (salary > 50000 OR experience > 5)"

/-- `{age:35, department:"Sales", salary:60000, experience:6}`. -/
def c1data1 : Record :=
  [("age", .num 35), ("department", .str "Sales"),
   ("salary", .num 60000), ("experience", .num 6)]

/-- `{age:29, department:"Sales", salary:40000, experience:3}`. -/
def c1data3 : Record :=
  [("age", .num 29), ("department", .str "Sales"),
   ("salary", .num 40000), ("experience", .num 3)]

/-- C1: compiling (tokenize then parse) the scenario rule succeeds, and
evaluating the resulting tree returns `true` on the first record and
`false` on the second. -/
theorem c1_concrete_scenario :
    exceptOk (create_rule c1rule) = true ∧
    Except.bind (create_rule c1rule) (fun a => evaluate_rule a c1data1) =
      .ok true ∧
    Except.bind (create_rule c1rule) (fun a => evaluate_rule a c1data3) =
      .ok false :=
  ⟨rfl, rfl, rfl⟩

/-- C6: the combinator skips the unparseable second rule and returns the
first rule's tree as-is (no synthetic `OR` wrapper), which is exactly what
compiling `"age > 30"` alone produces. -/
theorem c6_combinator_partial_tolerance :
    combine_rules ["age > 30", "not a valid rule ++"] =
      .ok (Node.mk "operand" "age > 30" Node.null Node.null) ∧
    create_rule "age > 30" =
      .ok (Node.mk "operand" "age > 30" Node.null Node.null) :=
  ⟨rfl, rfl⟩

/-- C7: when no rule in the list parses, the combinator returns the absent
result (`None`, modelled by `Node.null`) rather than an error or a tree. -/
theorem c7_combinator_total_failure :
    combine_rules ["not valid", "also not valid"] = .ok Node.null :=
  rfl

/-- C8: on a closing parenthesis with no matching opening one, `parse`
reaches `operators.pop()` on an empty list and crashes with an untyped
`IndexError`, which is not a `ValueError` and escapes `create_rule`'s
`except ValueError` unchanged — the promised typed `ParseError` never
happens. -/
theorem c8_unmatched_paren_index_error :
    create_rule "age > 30 )" = .error Err.indexError ∧
    Err.isValueError Err.indexError = false :=
  ⟨rfl, rfl⟩

/-- Full match of the identifier grammar `[a-zA-Z_][a-zA-Z0-9_.]*`. -/
def identFull (t : String) : Bool :=
  match t.data with
  | [] => false
  | c :: cs => isAlphaUnd c && cs.all isIdentCont

/-- Modelled from the spec: the token forms enumerated by the
specification — `(`, `)`, `AND`, `OR`, an identifier, one of the seven
comparators `> < >= <= == != =`, a quoted-string literal, or numeric text.
Used to compare the specification's statement with what `tokenize`
produces. -/
def specTokenForm (t : String) : Bool :=
  t = "(" || t = ")" || t = "AND" || t = "OR" || identFull t ||
  t = ">" || t = "<" || t = ">=" || t = "<=" || t = "==" || t = "!=" || t = "=" ||
  (match t.data.head?, t.data.getLast? with
   | some a, some b =>
     decide (2 ≤ t.data.length) &&
     ((a.toNat = 39 && b.toNat = 39) || (a.toNat = 34 && b.toNat = 34))
   | _, _ => false) ||
  (!t.data.isEmpty && t.data.all (fun c => isDigitCh c || c.toNat = 46))

/-- C9 counterexample: `re.split` keeps the non-blank text *between*
matches, so tokenizing `"++"` yields the token `"++"`, and tokenizing
`"a ! b"` yields a bare `"!"` — neither is among the claim's defined
lexical forms. -/
theorem c9_counterexample_unmatched_span_token :
    tokenize "++" = ["++"] ∧ specTokenForm "++" = false ∧
    tokenize "a ! b" = ["a", "!", "b"] ∧ specTokenForm "!" = false :=
  ⟨rfl, rfl, rfl, rfl⟩

/-- Round-trip of serialization: `json_to_node` inverts `to_dict` on every
actual node (every tree a successful compile or the combinator returns is
one). -/
theorem json_to_node_to_dict (n : Node) (h : n ≠ Node.null) :
    json_to_node (to_dict n) = .ok n := by
  induction n with
  | null => exact absurd rfl h
  | mk t v l r ihl ihr =>
    have hl : (if dictFalsy (to_dict l) then Except.ok Node.null
               else json_to_node (to_dict l)) = Except.ok l := by
      cases l with
      | null => simp [to_dict, dictFalsy]
      | mk tl vl ll rl =>
        rw [if_neg, ihl (by simp)]
        simp [to_dict, dictFalsy]
    have hr : (if dictFalsy (to_dict r) then Except.ok Node.null
               else json_to_node (to_dict r)) = Except.ok r := by
      cases r with
      | null => simp [to_dict, dictFalsy]
      | mk tr vr lr rr =>
        rw [if_neg, ihr (by simp)]
        simp [to_dict, dictFalsy]
    simp only [to_dict, json_to_node]
    rw [hl, hr]

/-- C3: deserializing the serialization of any compiled or combined tree
yields a structurally identical tree, and deserialization rejects any
attribute map missing `node_type` or `value`. -/
theorem c3_roundtrip_and_missing_keys :
    (∀ n : Node, n ≠ Node.null → json_to_node (to_dict n) = .ok n) ∧
    (∀ (t v : Option String) (l r : NodeDict), t = none ∨ v = none →
      json_to_node (NodeDict.mk t v l r) = .error Err.missingKeys) := by
  constructor
  · exact json_to_node_to_dict
  · intro t v l r h
    match t, v, h with
    | none, v, _ => cases v <;> rfl
    | some _, none, _ => rfl
    | some _, some _, h => cases h with
      | inl h => exact absurd h (by simp)
      | inr h => exact absurd h (by simp)

/-- C3 witness: the round trip at a concrete leaf, and rejection of a
concrete map missing `node_type`. -/
theorem c3_roundtrip_witness :
    json_to_node (to_dict (Node.mk "operand" "age > 30" Node.null Node.null)) =
      .ok (Node.mk "operand" "age > 30" Node.null Node.null) ∧
    json_to_node (NodeDict.mk none (some "AND") NodeDict.absent NodeDict.absent) =
      .error Err.missingKeys :=
  ⟨c3_roundtrip_and_missing_keys.1 _ (by decide),
   c3_roundtrip_and_missing_keys.2 none (some "AND") .absent .absent (Or.inl rfl)⟩

/-- C4: a leaf condition of valid shape whose field is absent from the
record always fails with the field-not-found error — both at
`evaluate_condition` and through `evaluate_rule` on the operand node — and
never yields a boolean. -/
theorem c4_missing_field_is_error (operand : String) (data : Record)
    (f op v rest : List Char)
    (hm : matchCondition operand.data = some (f, op, v, rest))
    (hf : lookupRecord data (String.mk f) = none) :
    evaluate_condition operand data = .error (.fieldNotFound (String.mk f)) ∧
    evaluate_rule (Node.mk "operand" operand Node.null Node.null) data =
      .error (.fieldNotFound (String.mk f)) := by
  have h0 : evaluate_condition operand data = evalCond3 f op v data := by
    unfold evaluate_condition
    rw [hm]
  have h1 : evaluate_condition operand data = .error (.fieldNotFound (String.mk f)) := by
    rw [h0]
    unfold evalCond3
    rw [hf]
  refine ⟨h1, ?_⟩
  rw [evaluate_rule]
  simp only [reduceIte, String.reduceEq]
  exact h1

/-- C4 witness: evaluating `"age > 30"` against a record without an `age`
field fails with the field-not-found error. -/
theorem c4_missing_field_witness :
    evaluate_condition "age > 30" [("salary", Value.num 1)] =
      .error (.fieldNotFound "age") ∧
    evaluate_rule (Node.mk "operand" "age > 30" Node.null Node.null)
      [("salary", Value.num 1)] = .error (.fieldNotFound "age") :=
  c4_missing_field_is_error "age > 30" [("salary", Value.num 1)]
    ['a', 'g', 'e'] ['>'] ['3', '0'] [] rfl rfl

/-- C5: an operator node evaluates both children unconditionally and only
then combines the booleans; in particular an `AND` node whose left child is
`false` still evaluates the right child, so an error raised there
propagates instead of the node returning `false`. -/
theorem c5_no_short_circuit :
    (∀ (data : Record) (l r : Node) (lb rb : Bool),
      evaluate_rule l data = .ok lb → evaluate_rule r data = .ok rb →
      evaluate_rule (Node.mk "operator" "AND" l r) data = .ok (lb && rb) ∧
      evaluate_rule (Node.mk "operator" "OR" l r) data = .ok (lb || rb)) ∧
    (∀ (data : Record) (l r : Node) (e : Err),
      evaluate_rule l data = .ok false → evaluate_rule r data = .error e →
      evaluate_rule (Node.mk "operator" "AND" l r) data = .error e) := by
  constructor
  · intro data l r lb rb hl hr
    constructor <;> · rw [evaluate_rule]; simp [hl, hr]
  · intro data l r e hl hr
    rw [evaluate_rule]
    simp [hl, hr]

/-- C5 witness: `AND` with a false left leaf and a right leaf whose field
is missing propagates the right leaf's error. -/
theorem c5_no_short_circuit_witness :
    evaluate_rule
      (Node.mk "operator" "AND"
        (Node.mk "operand" "age > 30" Node.null Node.null)
        (Node.mk "operand" "salary > 1" Node.null Node.null))
      [("age", Value.num 5)] = .error (.fieldNotFound "salary") :=
  c5_no_short_circuit.2 [("age", Value.num 5)]
    (Node.mk "operand" "age > 30" Node.null Node.null)
    (Node.mk "operand" "salary > 1" Node.null Node.null)
    (.fieldNotFound "salary") rfl rfl

/-- A token triple that `parse`'s lookahead accepts as a leaf condition,
reached as such: the first token is none of `( ) AND OR` and starts like an
identifier, and the second starts with a comparator character (the third is
consumed without inspection). -/
def leafTriple (t1 t2 : String) : Prop :=
  t1 ≠ "(" ∧ t1 ≠ ")" ∧ t1 ≠ "AND" ∧ t1 ≠ "OR" ∧
  identStartTok t1 = true ∧ cmpStartTok t2 = true

/-- One leaf-condition step of the parser's token loop. -/
theorem parseLoop_leaf (n : Nat) (t1 t2 t3 : String) (ts : List String)
    (output : List Node) (ops : List String) (h : leafTriple t1 t2) :
    parseLoop (n + 1) (t1 :: t2 :: t3 :: ts) output ops =
      parseLoop n ts
        (Node.mk "operand" (t1 ++ " " ++ t2 ++ " " ++ t3) Node.null Node.null :: output)
        ops := by
  obtain ⟨h1, h2, h3, h4, h5, h6⟩ := h
  rw [parseLoop, if_neg h1, if_neg h2, if_neg (by simp [h3, h4]),
    if_pos (by rw [h5, h6]; rfl)]

/-- An `AND` token facing an empty operator stack is pushed directly. -/
theorem parseLoop_and_empty (n : Nat) (ts : List String) (output : List Node) :
    parseLoop (n + 1) ("AND" :: ts) output [] = parseLoop n ts output ["AND"] := rfl

/-- An `OR` token facing a pending `AND` first reduces it (popping two
output entries) and is then pushed. -/
theorem parseLoop_or_after_and (n : Nat) (ts : List String) (a b : Node) (rest : List Node) :
    parseLoop (n + 1) ("OR" :: ts) (b :: a :: rest) ["AND"] =
      parseLoop n ts (Node.mk "operator" "AND" a b :: rest) ["OR"] := rfl

/-- C2: `AND` binds tighter than `OR` with left-associative grouping — for
any three leaf conditions `a AND b OR c` parses to `OR(AND(a, b), c)`; and
with a false, b true, c true (record below) the rule evaluates to `true`,
as `(a AND b) OR c` does, while the tree of the other grouping
`a AND (b OR c)` evaluates to `false` on the same record. -/
theorem c2_and_binds_tighter_than_or :
    (∀ x1 x2 x3 y1 y2 y3 z1 z2 z3 : String,
      leafTriple x1 x2 → leafTriple y1 y2 → leafTriple z1 z2 →
      parse [x1, x2, x3, "AND", y1, y2, y3, "OR", z1, z2, z3] =
        .ok (Node.mk "operator" "OR"
              (Node.mk "operator" "AND"
                (Node.mk "operand" (x1 ++ " " ++ x2 ++ " " ++ x3) Node.null Node.null)
                (Node.mk "operand" (y1 ++ " " ++ y2 ++ " " ++ y3) Node.null Node.null))
              (Node.mk "operand" (z1 ++ " " ++ z2 ++ " " ++ z3) Node.null Node.null))) ∧
    Except.bind (create_rule "age > 30 AND exp > 5 OR score > 10")
      (fun a => evaluate_rule a
        [("age", .num 20), ("exp", .num 6), ("score", .num 11)]) = .ok true ∧
    evaluate_rule
      (Node.mk "operator" "AND"
        (Node.mk "operand" "age > 30" Node.null Node.null)
        (Node.mk "operator" "OR"
          (Node.mk "operand" "exp > 5" Node.null Node.null)
          (Node.mk "operand" "score > 10" Node.null Node.null)))
      [("age", .num 20), ("exp", .num 6), ("score", .num 11)] = .ok false := by
  refine ⟨?_, rfl, rfl⟩
  intro x1 x2 x3 y1 y2 y3 z1 z2 z3 hx hy hz
  rw [parse,
    show ([x1, x2, x3, "AND", y1, y2, y3, "OR", z1, z2, z3] : List String).length + 1 = 12
      from rfl,
    parseLoop_leaf 11 x1 x2 x3 _ _ _ hx, parseLoop_and_empty 10,
    parseLoop_leaf 9 y1 y2 y3 _ _ _ hy, parseLoop_or_after_and 8,
    parseLoop_leaf 7 z1 z2 z3 _ _ _ hz, parseLoop, collapseEnd, collapseEnd]

/-- C2 witness: the generic precedence statement applied at the concrete
token sequence of `"age > 30 AND exp > 5 OR score > 10"`. -/
theorem c2_precedence_witness :
    parse ["age", ">", "30", "AND", "exp", ">", "5", "OR", "score", ">", "10"] =
      .ok (Node.mk "operator" "OR"
            (Node.mk "operator" "AND"
              (Node.mk "operand" "age > 30" Node.null Node.null)
              (Node.mk "operand" "exp > 5" Node.null Node.null))
            (Node.mk "operand" "score > 10" Node.null Node.null)) :=
  c2_and_binds_tighter_than_or.1 "age" ">" "30" "exp" ">" "5" "score" ">" "10"
    (by refine ⟨?_, ?_, ?_, ?_, rfl, rfl⟩ <;> decide)
    (by refine ⟨?_, ?_, ?_, ?_, rfl, rfl⟩ <;> decide)
    (by refine ⟨?_, ?_, ?_, ?_, rfl, rfl⟩ <;> decide)

/-- Appending to the input does not change a greedy run that stopped at a
character of the input (rather than at its end). -/
theorem takeRun_append (p : Char → Bool) (xs ys : List Char)
    (hb : (takeRun p xs).2 ≠ []) :
    takeRun p (xs ++ ys) = ((takeRun p xs).1, (takeRun p xs).2 ++ ys) := by
  induction xs with
  | nil => simp [takeRun] at hb
  | cons c cs ih =>
    by_cases hc : p c = true
    · rw [takeRun, if_pos hc] at hb
      rw [List.cons_append, takeRun, if_pos hc, takeRun, if_pos hc]
      have hb' : (takeRun p cs).2 ≠ [] := hb
      rw [ih hb']
    · rw [List.cons_append, takeRun, if_neg hc, takeRun, if_neg hc]
      rfl

/-- Appending to the input does not move the first closing quote a
successful lazy quote scan found. -/
theorem condQuoteScan_append (q : Nat) (xs ys a b : List Char)
    (h : condQuoteScan q xs = some (a, b)) :
    condQuoteScan q (xs ++ ys) = some (a, b ++ ys) := by
  induction xs generalizing a b with
  | nil => rw [condQuoteScan] at h; exact absurd h Option.noConfusion
  | cons c cs ih =>
    rw [condQuoteScan] at h
    rw [List.cons_append, condQuoteScan]
    by_cases hq : c.toNat = q
    · rw [if_pos hq] at h ⊢
      obtain ⟨h1, h2⟩ := Prod.mk.injEq .. ▸ Option.some.inj h
      rw [← h1, ← h2]
    · rw [if_neg hq] at h ⊢
      by_cases hn : c.toNat = 10
      · rw [if_pos hn] at h
        exact absurd h Option.noConfusion
      · rw [if_neg hn] at h ⊢
        match hs : condQuoteScan q cs with
        | none => rw [hs] at h; exact absurd h Option.noConfusion
        | some (a', b') =>
          rw [hs] at h
          obtain ⟨h1, h2⟩ := Prod.mk.injEq .. ▸ Option.some.inj h
          rw [ih a' b' hs, ← h1, ← h2]
          rfl

/-- The literal alternative starting with a digit always matches (the
fractional part is optional). -/
theorem matchLit_digit_some (c : Char) (xs : List Char) (hc : isDigitCh c = true) :
    ∃ v r, matchLit (c :: xs) = some (v, r) := by
  rw [matchLit, if_pos hc]
  rcases htr : takeRun isDigitCh xs with ⟨ds, _ | ⟨p, _ | ⟨e, r2⟩⟩⟩
  · exact ⟨_, _, rfl⟩
  · exact ⟨_, _, rfl⟩
  · dsimp only
    rcases hfr : takeRun isDigitCh r2 with ⟨fs, r3⟩
    by_cases hf : (decide (p.toNat = 46) && isDigitCh e) = true
    · rw [if_pos hf]
      exact ⟨_, _, rfl⟩
    · rw [if_neg hf]
      exact ⟨_, _, rfl⟩

/-- A literal that matched up to the end of the input still matches (with a
possibly longer numeric span) after arbitrary text is appended. -/
theorem matchLit_append (xs ys v : List Char) (h : matchLit xs = some (v, [])) :
    ∃ v' r', matchLit (xs ++ ys) = some (v', r') := by
  match xs with
  | [] => rw [matchLit] at h; exact absurd h Option.noConfusion
  | c :: rest =>
    rw [List.cons_append]
    by_cases hd : isDigitCh c = true
    · exact matchLit_digit_some c (rest ++ ys) hd
    · rw [matchLit, if_neg hd] at h
      by_cases hq : c.toNat = 39
      · rw [if_pos hq] at h
        match hs : condQuoteScan 39 rest with
        | none => rw [hs] at h; exact absurd h Option.noConfusion
        | some (a, b) =>
          rw [hs] at h
          refine ⟨c :: a, b ++ ys, ?_⟩
          rw [matchLit, if_neg hd, if_pos hq, condQuoteScan_append 39 rest ys a b hs]
          rfl
      · rw [if_neg hq] at h
        by_cases hq2 : c.toNat = 34
        · rw [if_pos hq2] at h
          match hs : condQuoteScan 34 rest with
          | none => rw [hs] at h; exact absurd h Option.noConfusion
          | some (a, b) =>
            rw [hs] at h
            refine ⟨c :: a, b ++ ys, ?_⟩
            rw [matchLit, if_neg hd, if_neg hq, if_pos hq2,
              condQuoteScan_append 34 rest ys a b hs]
            rfl
        · rw [if_neg hq2] at h
          exact absurd h Option.noConfusion

/-- A condition that the pattern matches *in full* still matches after
arbitrary text is appended: the field and comparator groups are unchanged
(each greedy group stops at a character inside the original text), and only
the literal group can grow (a trailing digit run).  This is what makes
`re.match` prefix-only semantics total on extended inputs. -/
theorem matchCondition_append (pre junk : List Char) (f op v : List Char)
    (hm : matchCondition pre = some (f, op, v, [])) :
    ∃ v' r', matchCondition (pre ++ junk) = some (f, op, v', r') := by
  match pre with
  | [] => rw [matchCondition] at hm; exact absurd hm Option.noConfusion
  | c :: rest =>
    rw [matchCondition] at hm
    by_cases ha : isAlphaUnd c = true
    case neg => rw [if_neg ha] at hm; exact absurd hm Option.noConfusion
    rw [if_pos ha] at hm
    rcases h1 : takeRun isIdentCont rest with ⟨f1, r1⟩
    rw [h1] at hm
    rcases h2 : takeRun isPySpace r1 with ⟨w1, r2⟩
    rw [h2] at hm
    match r2, h2 with
    | [], h2 => simp at hm
    | d :: r3, h2 =>
      dsimp only at hm
      by_cases hcd : isCmpChar d = true
      case neg => rw [if_neg hcd] at hm; exact absurd hm Option.noConfusion
      rw [if_pos hcd] at hm
      rcases h3 : matchOp d r3 with ⟨opT, r4⟩
      rw [h3] at hm
      rcases h4 : takeRun isPySpace r4 with ⟨w2, r5⟩
      rw [h4] at hm
      dsimp only at hm
      match h5 : matchLit r5 with
      | none => rw [h5] at hm; exact absurd hm Option.noConfusion
      | some (vv, r6) =>
        rw [h5] at hm
        simp only [Option.some.injEq, Prod.mk.injEq] at hm
        obtain ⟨hfe, hope, hve, hre⟩ := hm
        have hr1 : r1 ≠ [] := by
          intro h0
          rw [h0, takeRun] at h2
          exact List.noConfusion (congrArg Prod.snd h2)
        have e1 : takeRun isIdentCont (rest ++ junk) = (f1, r1 ++ junk) := by
          have hne : (takeRun isIdentCont rest).2 ≠ [] := by rw [h1]; exact hr1
          have h' := takeRun_append isIdentCont rest junk hne
          rw [h1] at h'
          exact h'
        have e2 : takeRun isPySpace (r1 ++ junk) = (w1, d :: (r3 ++ junk)) := by
          have hne : (takeRun isPySpace r1).2 ≠ [] := by
            rw [h2]; exact fun h0 => List.noConfusion h0
          have h' := takeRun_append isPySpace r1 junk hne
          rw [h2] at h'
          exact h'
        have hr3 : r3 ≠ [] := by
          intro h0
          rw [h0, matchOp] at h3
          have hr4 : r4 = [] := (congrArg Prod.snd h3).symm
          rw [hr4, takeRun] at h4
          have hr5 : r5 = [] := (congrArg Prod.snd h4).symm
          rw [hr5, matchLit] at h5
          exact Option.noConfusion h5
        match r3, hr3, h3, e2 with
        | ec :: r3t, _, h3, e2 =>
          have e3 : matchOp d ((ec :: r3t) ++ junk) = (opT, r4 ++ junk) := by
            rw [List.cons_append, matchOp]
            rw [matchOp] at h3
            by_cases he : ec.toNat = 61
            · rw [if_pos he] at h3 ⊢
              obtain ⟨ho, hr⟩ := Prod.mk.injEq .. ▸ h3
              rw [← ho, ← hr]
            · rw [if_neg he] at h3 ⊢
              obtain ⟨ho, hr⟩ := Prod.mk.injEq .. ▸ h3
              rw [← ho, ← hr]
              rfl
          have hr5 : r5 ≠ [] := by
            intro h0
            rw [h0, matchLit] at h5
            exact Option.noConfusion h5
          have e4 : takeRun isPySpace (r4 ++ junk) = (w2, r5 ++ junk) := by
            have hne : (takeRun isPySpace r4).2 ≠ [] := by rw [h4]; exact hr5
            have h' := takeRun_append isPySpace r4 junk hne
            rw [h4] at h'
            exact h'
          obtain ⟨v', r', e5⟩ := matchLit_append r5 junk vv (hre ▸ h5)
          refine ⟨v', r', ?_⟩
          rw [List.cons_append, matchCondition, if_pos ha, e1]
          dsimp only
          rw [e2]
          dsimp only
          rw [if_pos hcd, e3]
          dsimp only
          rw [e4]
          dsimp only
          rw [e5, hfe, hope]

/-- Once the condition pattern has matched, the invalid-condition error can
no longer arise: the post-match body only raises field-not-found,
bad-numeric-literal or unsupported-operator errors. -/
theorem evalCond3_ne_invalid (f op v : List Char) (data : Record) (s : String) :
    evalCond3 f op v data ≠ .error (.invalidCondition s) := by
  intro h
  simp only [evalCond3, applyCmpNum, applyCmpStr] at h
  repeat' split at h
  all_goals simp at h

/-- C10: condition matching is prefix-only — for every condition text
consisting of a fully matching `field comparator literal` prefix followed
by arbitrary extra text, `evaluate_condition` does not raise the
invalid-condition error: the pattern still matches (same field and
comparator; only a numeric literal can absorb leading digits of the extra
text), and evaluation uses only the matched groups, silently ignoring the
remainder. -/
theorem c10_prefix_only_matching (pre junk : List Char) (data : Record)
    (f op v : List Char)
    (hm : matchCondition pre = some (f, op, v, [])) :
    ∃ v' r', matchCondition (pre ++ junk) = some (f, op, v', r') ∧
      evaluate_condition (String.mk (pre ++ junk)) data = evalCond3 f op v' data ∧
      ∀ s, evaluate_condition (String.mk (pre ++ junk)) data ≠
        .error (.invalidCondition s) := by
  obtain ⟨v', r', he⟩ := matchCondition_append pre junk f op v hm
  refine ⟨v', r', he, ?_, ?_⟩
  · unfold evaluate_condition
    rw [show (String.mk (pre ++ junk)).data = pre ++ junk from rfl, he]
  · intro s
    unfold evaluate_condition
    rw [show (String.mk (pre ++ junk)).data = pre ++ junk from rfl, he]
    exact evalCond3_ne_invalid f op v' data s

/-- C10 witness: `"age > 30 extra junk"` (the prefix `"age > 30"` extended
by `" extra junk"`) is still matched — with the same groups — and is
evaluated from those groups alone. -/
theorem c10_prefix_only_witness :
    ∃ v' r',
      matchCondition ("age > 30".data ++ " extra junk".data) =
        some (['a', 'g', 'e'], ['>'], v', r') ∧
      evaluate_condition (String.mk ("age > 30".data ++ " extra junk".data))
        [("age", Value.num 35)] =
        evalCond3 ['a', 'g', 'e'] ['>'] v' [("age", Value.num 35)] ∧
      ∀ s, evaluate_condition (String.mk ("age > 30".data ++ " extra junk".data))
        [("age", Value.num 35)] ≠ .error (.invalidCondition s) :=
  c10_prefix_only_matching "age > 30".data " extra junk".data
    [("age", Value.num 35)] ['a', 'g', 'e'] ['>'] ['3', '0'] rfl

/-- A greedy run is no longer than its input. -/
theorem chRun_le (p : Char → Bool) (xs : List Char) : chRun p xs ≤ xs.length := by
  induction xs with
  | nil => exact Nat.le_refl 0
  | cons c cs ih =>
    rw [chRun]
    by_cases hc : p c = true
    · rw [if_pos hc]; exact Nat.succ_le_succ ih
    · rw [if_neg hc]; exact Nat.zero_le _

/-- A greedy run re-run on exactly its own span consumes the whole span. -/
theorem chRun_take (p : Char → Bool) (xs : List Char) :
    chRun p (xs.take (chRun p xs)) = chRun p xs := by
  induction xs with
  | nil => rfl
  | cons c cs ih =>
    by_cases hc : p c = true
    · rw [chRun, if_pos hc, List.take_succ_cons, chRun, if_pos hc, ih]
    · rw [chRun, if_neg hc, List.take_zero, chRun]

/-- A successful quote scan consumes between one character and the whole
input. -/
theorem tokQuoteScan_bounds (q : Nat) (xs : List Char) (m : Nat)
    (h : tokQuoteScan q xs = some m) : 1 ≤ m ∧ m ≤ xs.length := by
  induction xs generalizing m with
  | nil => rw [tokQuoteScan] at h; exact absurd h Option.noConfusion
  | cons c cs ih =>
    rw [tokQuoteScan] at h
    by_cases hq : c.toNat = q
    · rw [if_pos hq] at h
      cases Option.some.inj h
      exact ⟨Nat.le_refl 1, Nat.succ_le_succ (Nat.zero_le _)⟩
    · rw [if_neg hq] at h
      match hs : tokQuoteScan q cs with
      | none => rw [hs] at h; exact absurd h Option.noConfusion
      | some m' =>
        rw [hs] at h
        cases Option.some.inj h
        obtain ⟨ih1, ih2⟩ := ih m' hs
        exact ⟨Nat.le_succ_of_le ih1, Nat.succ_le_succ ih2⟩

/-- A successful quote scan re-run on exactly its own span succeeds with
the same length. -/
theorem tokQuoteScan_take (q : Nat) (xs : List Char) (m : Nat)
    (h : tokQuoteScan q xs = some m) : tokQuoteScan q (xs.take m) = some m := by
  induction xs generalizing m with
  | nil => rw [tokQuoteScan] at h; exact absurd h Option.noConfusion
  | cons c cs ih =>
    rw [tokQuoteScan] at h
    by_cases hq : c.toNat = q
    · rw [if_pos hq] at h
      cases Option.some.inj h
      rw [List.take_succ_cons, List.take_zero, tokQuoteScan, if_pos hq]
    · rw [if_neg hq] at h
      match hs : tokQuoteScan q cs with
      | none => rw [hs] at h; exact absurd h Option.noConfusion
      | some m' =>
        rw [hs] at h
        cases Option.some.inj h
        rw [List.take_succ_cons, tokQuoteScan, if_neg hq, ih m' hs]
        rfl

/-- A successful quote scan is unaffected by appended text (the closing
quote it found comes first either way). -/
theorem tokQuoteScan_append (q : Nat) (xs zs : List Char) (m : Nat)
    (h : tokQuoteScan q xs = some m) : tokQuoteScan q (xs ++ zs) = some m := by
  induction xs generalizing m with
  | nil => rw [tokQuoteScan] at h; exact absurd h Option.noConfusion
  | cons c cs ih =>
    rw [tokQuoteScan] at h
    rw [List.cons_append, tokQuoteScan]
    by_cases hq : c.toNat = q
    · rw [if_pos hq] at h ⊢
      exact h
    · rw [if_neg hq] at h ⊢
      match hs : tokQuoteScan q cs with
      | none => rw [hs] at h; exact absurd h Option.noConfusion
      | some m' =>
        rw [hs] at h
        rw [ih m' hs]
        exact h

/-- A bracket/comparator character is not whitespace, not `A`, not `O`, and
not an identifier head. -/
theorem isCmpParen_props (c : Char) (h : isCmpParen c = true) :
    isPySpace c = false ∧ c.toNat ≠ 65 ∧ c.toNat ≠ 79 ∧ isAlphaUnd c = false := by
  simp only [isCmpParen, Bool.or_eq_true, decide_eq_true_eq] at h
  simp only [isPySpace, isAlphaUnd, Bool.or_eq_false_iff, Bool.and_eq_false_iff,
    decide_eq_false_iff_not, ne_eq]
  omega

/-- An identifier-head character is not whitespace and not a
bracket/comparator character. -/
theorem isAlphaUnd_props (c : Char) (h : isAlphaUnd c = true) :
    isPySpace c = false ∧ isCmpParen c = false := by
  simp only [isAlphaUnd, Bool.or_eq_true, Bool.and_eq_true, decide_eq_true_eq] at h
  simp only [isPySpace, isCmpParen, Bool.or_eq_false_iff, Bool.and_eq_false_iff,
    decide_eq_false_iff_not]
  omega

/-- A quote character (39 or 34) fails every earlier alternative of the
tokenizer pattern. -/
theorem quote_props (c : Char) (h : c.toNat = 39 ∨ c.toNat = 34) :
    isPySpace c = false ∧ c.toNat ≠ 65 ∧ c.toNat ≠ 79 ∧
    isCmpParen c = false ∧ isAlphaUnd c = false := by
  simp only [isPySpace, isCmpParen, isAlphaUnd, Bool.or_eq_false_iff,
    Bool.and_eq_false_iff, decide_eq_false_iff_not, ne_eq]
  omega

/-- The keyword heads `A` (65) and `O` (79) are not whitespace. -/
theorem keyword_head_not_space (c : Char) (h : c.toNat = 65 ∨ c.toNat = 79) :
    isPySpace c = false := by
  simp only [isPySpace, Bool.or_eq_false_iff, Bool.and_eq_false_iff,
    decide_eq_false_iff_not]
  omega

/-- A successful lexical match consumes between one character and the whole
input. -/
theorem lexMatch_bounds (cs : List Char) (n : Nat) (h : lexMatch cs = some n) :
    1 ≤ n ∧ n ≤ cs.length := by
  match cs with
  | [] => rw [lexMatch] at h; exact absurd h Option.noConfusion
  | c :: rest =>
    rw [lexMatch] at h
    rw [List.length_cons]
    by_cases h1 : isPySpace c = true
    · rw [if_pos h1] at h
      cases Option.some.inj h
      exact ⟨Nat.succ_le_succ (Nat.zero_le _), Nat.succ_le_succ (chRun_le _ _)⟩
    rw [if_neg h1] at h
    by_cases h2 : (c.toNat = 65 && decide (rest.take 2 = [Char.ofNat 78, Char.ofNat 68])) = true
    · rw [if_pos h2] at h
      cases Option.some.inj h
      rw [Bool.and_eq_true] at h2
      have ht' := of_decide_eq_true h2.2
      have hlen : (rest.take 2).length = 2 := by rw [ht']; rfl
      rw [List.length_take] at hlen
      omega
    rw [if_neg h2] at h
    by_cases h3 : (c.toNat = 79 && decide (rest.take 1 = [Char.ofNat 82])) = true
    · rw [if_pos h3] at h
      cases Option.some.inj h
      rw [Bool.and_eq_true] at h3
      have ht' := of_decide_eq_true h3.2
      have hlen : (rest.take 1).length = 1 := by rw [ht']; rfl
      rw [List.length_take] at hlen
      omega
    rw [if_neg h3] at h
    by_cases h4 : isCmpParen c = true
    · rw [if_pos h4] at h
      by_cases hhd : rest.head? = some (Char.ofNat 61)
      · rw [if_pos hhd] at h
        cases Option.some.inj h
        match rest, hhd with
        | e :: rest', _ => simp
      · rw [if_neg hhd] at h
        cases Option.some.inj h
        omega
    rw [if_neg h4] at h
    by_cases h5 : isAlphaUnd c = true
    · rw [if_pos h5] at h
      cases Option.some.inj h
      exact ⟨Nat.succ_le_succ (Nat.zero_le _), Nat.succ_le_succ (chRun_le _ _)⟩
    rw [if_neg h5] at h
    by_cases h6 : c.toNat = 39
    · rw [if_pos h6] at h
      match hs : tokQuoteScan 39 rest with
      | none => rw [hs] at h; exact absurd h Option.noConfusion
      | some m0 =>
        rw [hs] at h
        have h' : m0 + 1 = n := Option.some.inj h
        obtain ⟨hb1, hb2⟩ := tokQuoteScan_bounds 39 rest m0 hs
        omega
    rw [if_neg h6] at h
    by_cases h7 : c.toNat = 34
    · rw [if_pos h7] at h
      match hs : tokQuoteScan 34 rest with
      | none => rw [hs] at h; exact absurd h Option.noConfusion
      | some m0 =>
        rw [hs] at h
        have h' : m0 + 1 = n := Option.some.inj h
        obtain ⟨hb1, hb2⟩ := tokQuoteScan_bounds 34 rest m0 hs
        omega
    rw [if_neg h7] at h
    exact absurd h Option.noConfusion

/-- If the tokenizer pattern matches at a position, it still matches there
after arbitrary text is appended (each alternative's success depends only
on characters up to its own match, with the possible upgrade of an
identifier head into a keyword — the match length may change, not the
fact of matching). -/
theorem lexMatch_append (ys zs : List Char) (n : Nat) (h : lexMatch ys = some n) :
    ∃ m, lexMatch (ys ++ zs) = some m := by
  match ys with
  | [] => rw [lexMatch] at h; exact absurd h Option.noConfusion
  | c :: rest =>
    rw [lexMatch] at h
    rw [List.cons_append, lexMatch]
    by_cases h1 : isPySpace c = true
    · rw [if_pos h1]; exact ⟨_, rfl⟩
    rw [if_neg h1] at h ⊢
    by_cases h2 : (c.toNat = 65 &&
        decide ((rest ++ zs).take 2 = [Char.ofNat 78, Char.ofNat 68])) = true
    · rw [if_pos h2]; exact ⟨_, rfl⟩
    rw [if_neg h2]
    by_cases h3 : (c.toNat = 79 && decide ((rest ++ zs).take 1 = [Char.ofNat 82])) = true
    · rw [if_pos h3]; exact ⟨_, rfl⟩
    rw [if_neg h3]
    by_cases h4 : isCmpParen c = true
    · rw [if_pos h4]; exact ⟨_, rfl⟩
    rw [if_neg h4] at h ⊢
    by_cases h5 : isAlphaUnd c = true
    · rw [if_pos h5]; exact ⟨_, rfl⟩
    rw [if_neg h5] at h ⊢
    have hA : ¬(c.toNat = 65 && decide (rest.take 2 = [Char.ofNat 78, Char.ofNat 68])) = true := by
      intro hx
      rw [Bool.and_eq_true] at hx
      apply h5
      have h65 := of_decide_eq_true hx.1
      simp only [isAlphaUnd, Bool.or_eq_true, Bool.and_eq_true, decide_eq_true_eq]
      omega
    have hO : ¬(c.toNat = 79 && decide (rest.take 1 = [Char.ofNat 82])) = true := by
      intro hx
      rw [Bool.and_eq_true] at hx
      apply h5
      have h79 := of_decide_eq_true hx.1
      simp only [isAlphaUnd, Bool.or_eq_true, Bool.and_eq_true, decide_eq_true_eq]
      omega
    rw [if_neg hA, if_neg hO] at h
    by_cases h6 : c.toNat = 39
    · rw [if_pos h6] at h ⊢
      match hs : tokQuoteScan 39 rest with
      | none => rw [hs] at h; exact absurd h Option.noConfusion
      | some m0 => rw [tokQuoteScan_append 39 rest zs m0 hs]; exact ⟨_, rfl⟩
    rw [if_neg h6] at h ⊢
    by_cases h7 : c.toNat = 34
    · rw [if_pos h7] at h ⊢
      match hs : tokQuoteScan 34 rest with
      | none => rw [hs] at h; exact absurd h Option.noConfusion
      | some m0 => rw [tokQuoteScan_append 34 rest zs m0 hs]; exact ⟨_, rfl⟩
    rw [if_neg h7] at h
    exact absurd h Option.noConfusion

/-- The span consumed by a lexical match, taken on its own, is a complete
match of the pattern of the same length. -/
theorem lexMatch_take (cs : List Char) (n : Nat) (h : lexMatch cs = some n) :
    lexMatch (cs.take n) = some n := by
  match cs with
  | [] => rw [lexMatch] at h; exact absurd h Option.noConfusion
  | c :: rest =>
    rw [lexMatch] at h
    by_cases h1 : isPySpace c = true
    · rw [if_pos h1] at h
      cases Option.some.inj h
      rw [List.take_succ_cons, lexMatch, if_pos h1, chRun_take]
    rw [if_neg h1] at h
    by_cases h2 : (c.toNat = 65 && decide (rest.take 2 = [Char.ofNat 78, Char.ofNat 68])) = true
    · rw [if_pos h2] at h
      cases Option.some.inj h
      rw [Bool.and_eq_true] at h2
      have hc' := of_decide_eq_true h2.1
      have ht' := of_decide_eq_true h2.2
      rw [List.take_succ_cons, ht', lexMatch,
        if_neg (by rw [keyword_head_not_space c (Or.inl hc')]; exact Bool.false_ne_true),
        if_pos (by rw [Bool.and_eq_true]; exact ⟨decide_eq_true hc', by decide⟩)]
    rw [if_neg h2] at h
    by_cases h3 : (c.toNat = 79 && decide (rest.take 1 = [Char.ofNat 82])) = true
    · rw [if_pos h3] at h
      cases Option.some.inj h
      rw [Bool.and_eq_true] at h3
      have hc' := of_decide_eq_true h3.1
      have ht' := of_decide_eq_true h3.2
      rw [List.take_succ_cons, ht', lexMatch,
        if_neg (by rw [keyword_head_not_space c (Or.inr hc')]; exact Bool.false_ne_true),
        if_neg (by rw [Bool.and_eq_true]; rintro ⟨hx, _⟩; exact absurd (of_decide_eq_true hx) (by omega)),
        if_pos (by rw [Bool.and_eq_true]; exact ⟨decide_eq_true hc', by decide⟩)]
    rw [if_neg h3] at h
    by_cases h4 : isCmpParen c = true
    · rw [if_pos h4] at h
      obtain ⟨hp1, hp2, hp3, hp4⟩ := isCmpParen_props c h4
      by_cases hhd : rest.head? = some (Char.ofNat 61)
      · rw [if_pos hhd] at h
        cases Option.some.inj h
        match rest, hhd with
        | e :: rest', hhd =>
          have he : e = Char.ofNat 61 := Option.some.inj hhd
          rw [List.take_succ_cons, List.take_succ_cons, List.take_zero, he, lexMatch,
            if_neg (by rw [hp1]; exact Bool.false_ne_true),
            if_neg (by rw [Bool.and_eq_true]; rintro ⟨hx, _⟩; exact hp2 (of_decide_eq_true hx)),
            if_neg (by rw [Bool.and_eq_true]; rintro ⟨hx, _⟩; exact hp3 (of_decide_eq_true hx)),
            if_pos h4, if_pos (by rfl)]
      · rw [if_neg hhd] at h
        cases Option.some.inj h
        rw [List.take_succ_cons, List.take_zero, lexMatch,
          if_neg (by rw [hp1]; exact Bool.false_ne_true),
          if_neg (by rw [Bool.and_eq_true]; rintro ⟨hx, _⟩; exact hp2 (of_decide_eq_true hx)),
          if_neg (by rw [Bool.and_eq_true]; rintro ⟨hx, _⟩; exact hp3 (of_decide_eq_true hx)),
          if_pos h4, if_neg (by exact fun hx => Option.noConfusion hx)]
    rw [if_neg h4] at h
    by_cases h5 : isAlphaUnd c = true
    · rw [if_pos h5] at h
      cases Option.some.inj h
      obtain ⟨hp1, hp2⟩ := isAlphaUnd_props c h5
      have hAt : ¬(c.toNat = 65 &&
          decide ((rest.take (chRun isIdentCont rest)).take 2 =
            [Char.ofNat 78, Char.ofNat 68])) = true := by
        rw [Bool.and_eq_true]
        rintro ⟨hx, hy⟩
        have h65 := of_decide_eq_true hx
        have hy' := of_decide_eq_true hy
        rw [List.take_take] at hy'
        have hA2 : ¬(rest.take 2 = [Char.ofNat 78, Char.ofNat 68]) := by
          intro hz
          exact h2 (by rw [Bool.and_eq_true]; exact ⟨decide_eq_true h65, decide_eq_true hz⟩)
        by_cases hr : 2 ≤ chRun isIdentCont rest
        · rw [Nat.min_eq_left hr] at hy'
          exact hA2 hy'
        · have hlen := congrArg List.length hy'
          rw [List.length_take] at hlen
          simp only [List.length_cons, List.length_nil] at hlen
          omega
      have hOt : ¬(c.toNat = 79 &&
          decide ((rest.take (chRun isIdentCont rest)).take 1 = [Char.ofNat 82])) = true := by
        rw [Bool.and_eq_true]
        rintro ⟨hx, hy⟩
        have h79 := of_decide_eq_true hx
        have hy' := of_decide_eq_true hy
        rw [List.take_take] at hy'
        have hO2 : ¬(rest.take 1 = [Char.ofNat 82]) := by
          intro hz
          exact h3 (by rw [Bool.and_eq_true]; exact ⟨decide_eq_true h79, decide_eq_true hz⟩)
        by_cases hr : 1 ≤ chRun isIdentCont rest
        · rw [Nat.min_eq_left hr] at hy'
          exact hO2 hy'
        · have hlen := congrArg List.length hy'
          rw [List.length_take] at hlen
          simp only [List.length_cons, List.length_nil] at hlen
          omega
      rw [List.take_succ_cons, lexMatch,
        if_neg (by rw [hp1]; exact Bool.false_ne_true),
        if_neg hAt, if_neg hOt,
        if_neg (by rw [hp2]; exact Bool.false_ne_true),
        if_pos h5, chRun_take]
    rw [if_neg h5] at h
    by_cases h6 : c.toNat = 39
    · rw [if_pos h6] at h
      match hs : tokQuoteScan 39 rest with
      | none => rw [hs] at h; exact absurd h Option.noConfusion
      | some m0 =>
        rw [hs] at h
        have h' : m0 + 1 = n := Option.some.inj h
        obtain ⟨hq1, hq2, hq3, hq4, hq5⟩ := quote_props c (Or.inl h6)
        rw [← h', List.take_succ_cons, lexMatch,
          if_neg (by rw [hq1]; exact Bool.false_ne_true),
          if_neg (by rw [Bool.and_eq_true]; rintro ⟨hx, _⟩; exact hq2 (of_decide_eq_true hx)),
          if_neg (by rw [Bool.and_eq_true]; rintro ⟨hx, _⟩; exact hq3 (of_decide_eq_true hx)),
          if_neg (by rw [hq4]; exact Bool.false_ne_true),
          if_neg (by rw [hq5]; exact Bool.false_ne_true),
          if_pos h6, tokQuoteScan_take 39 rest m0 hs]
        rfl
    rw [if_neg h6] at h
    by_cases h7 : c.toNat = 34
    · rw [if_pos h7] at h
      match hs : tokQuoteScan 34 rest with
      | none => rw [hs] at h; exact absurd h Option.noConfusion
      | some m0 =>
        rw [hs] at h
        have h' : m0 + 1 = n := Option.some.inj h
        obtain ⟨hq1, hq2, hq3, hq4, hq5⟩ := quote_props c (Or.inr h7)
        rw [← h', List.take_succ_cons, lexMatch,
          if_neg (by rw [hq1]; exact Bool.false_ne_true),
          if_neg (by rw [Bool.and_eq_true]; rintro ⟨hx, _⟩; exact hq2 (of_decide_eq_true hx)),
          if_neg (by rw [Bool.and_eq_true]; rintro ⟨hx, _⟩; exact hq3 (of_decide_eq_true hx)),
          if_neg (by rw [hq4]; exact Bool.false_ne_true),
          if_neg (by rw [hq5]; exact Bool.false_ne_true),
          if_neg (by exact fun hx => absurd hx (by omega)), if_pos h7,
          tokQuoteScan_take 34 rest m0 hs]
        rfl
    rw [if_neg h7] at h
    exact absurd h Option.noConfusion

/-- Characterization of the leftmost match: the pattern matches at the
reported offset and at no earlier position. -/
theorem findMatch_spec (cs : List Char) (o l : Nat) (h : findMatch cs = some (o, l)) :
    lexMatch (cs.drop o) = some l ∧ ∀ j, j < o → lexMatch (cs.drop j) = none := by
  induction cs generalizing o l with
  | nil => rw [findMatch] at h; exact absurd h Option.noConfusion
  | cons c cs ih =>
    rw [findMatch] at h
    match hl : lexMatch (c :: cs) with
    | some l0 =>
      rw [hl] at h
      have h' : (0, l0) = (o, l) := Option.some.inj h
      obtain ⟨ho, hll⟩ := Prod.mk.injEq .. ▸ h'
      subst ho
      subst hll
      exact ⟨hl, fun j hj => absurd hj (Nat.not_lt_zero j)⟩
    | none =>
      rw [hl] at h
      match hf : findMatch cs with
      | none => rw [hf] at h; exact absurd h Option.noConfusion
      | some (o', l') =>
        rw [hf] at h
        have h' : (o' + 1, l') = (o, l) := Option.some.inj h
        obtain ⟨ho, hll⟩ := Prod.mk.injEq .. ▸ h'
        subst ho
        subst hll
        obtain ⟨ih1, ih2⟩ := ih o' l' hf
        refine ⟨by rw [List.drop_succ_cons]; exact ih1, ?_⟩
        intro j hj
        match j with
        | 0 => exact hl
        | j' + 1 =>
          rw [List.drop_succ_cons]
          exact ih2 j' (Nat.lt_of_succ_lt_succ hj)

/-- Truncating the input at a position before the leftmost match leaves a
span in which the pattern has no match at all: a match inside the truncated
span would, by `lexMatch_append`, extend to a match in the full input at a
position known to have none. -/
theorem findMatch_take_none (cs : List Char) (o : Nat)
    (h : ∀ j, j < o → lexMatch (cs.drop j) = none) :
    findMatch (cs.take o) = none := by
  induction cs generalizing o with
  | nil => rw [List.take_nil, findMatch]
  | cons c cs ih =>
    match o with
    | 0 => rw [List.take_zero, findMatch]
    | o' + 1 =>
      rw [List.take_succ_cons, findMatch]
      have hfull : lexMatch ((c :: cs.take o') ++ cs.drop o') = none := by
        rw [List.cons_append, List.take_append_drop]
        exact h 0 (Nat.succ_pos o')
      have hnone : lexMatch (c :: cs.take o') = none := by
        match hx : lexMatch (c :: cs.take o') with
        | none => rfl
        | some n =>
          obtain ⟨m, hm⟩ := lexMatch_append (c :: cs.take o') (cs.drop o') n hx
          rw [hm] at hfull
          exact absurd hfull Option.noConfusion
      rw [hnone]
      have hrec : findMatch (cs.take o') = none := by
        apply ih
        intro j hj
        have := h (j + 1) (Nat.succ_lt_succ hj)
        rw [List.drop_succ_cons] at this
        exact this
      rw [hrec]

/-- Every span kept by the split is either the full span of a lexical match
or a span of text containing no match at all (an unmatched field of
`re.split`). -/
theorem splitAux_tokens (fuel : Nat) : ∀ cs : List Char, cs.length ≤ fuel →
    ∀ t ∈ splitAux fuel cs, keepToken t = true →
      lexMatch t = some t.length ∨ findMatch t = none := by
  induction fuel with
  | zero =>
    intro cs hle t ht hk
    have hnil : cs = [] := List.length_eq_zero.mp (Nat.le_zero.mp hle)
    subst hnil
    rw [splitAux] at ht
    simp only [List.mem_singleton] at ht
    subst ht
    simp [keepToken] at hk
  | succ fuel ih =>
    intro cs hle t ht hk
    rw [splitAux] at ht
    match hf : findMatch cs with
    | none =>
      rw [hf] at ht
      simp only [List.mem_singleton] at ht
      subst ht
      exact Or.inr hf
    | some (o, l) =>
      rw [hf] at ht
      obtain ⟨h1, h2⟩ := findMatch_spec cs o l hf
      simp only [List.mem_cons] at ht
      rcases ht with rfl | rfl | hmem
      · exact Or.inr (findMatch_take_none cs o h2)
      · left
        obtain ⟨hb1, hb2⟩ := lexMatch_bounds (cs.drop o) l h1
        have hlen : ((cs.drop o).take l).length = l := by
          rw [List.length_take]
          exact Nat.min_eq_left hb2
        rw [hlen]
        exact lexMatch_take (cs.drop o) l h1
      · apply ih (cs.drop (o + l)) _ t hmem hk
        obtain ⟨hb1, _⟩ := lexMatch_bounds (cs.drop o) l h1
        rw [List.length_drop]
        omega

/-- C9 amended: every token `tokenize` produces is non-blank and is either
a complete match of the tokenizer's lexical pattern (which also admits a
bare `!` and other `[()<>!=]=?` forms) or a span of text between matches in
which the pattern matches nowhere — `re.split` keeps such unmatched
separators, which is precisely how numeric literals (`30`) and junk (`++`)
become tokens. -/
theorem c9_tokens_matched_or_unmatched_spans (s t : String) (ht : t ∈ tokenize s) :
    (∃ c ∈ t.data, isPySpace c = false) ∧
    (lexMatch t.data = some t.data.length ∨ findMatch t.data = none) := by
  unfold tokenize at ht
  simp only [List.mem_map, List.mem_filter] at ht
  obtain ⟨cs, ⟨hmem, hkeep⟩, rfl⟩ := ht
  constructor
  · simp only [keepToken, List.any_eq_true, Bool.not_eq_true'] at hkeep
    exact hkeep
  · exact splitAux_tokens s.data.length s.data (Nat.le_refl _) cs hmem hkeep

/-- C9 amended witness: the unmatched-span token `"++"` of `tokenize "++"`
(no match anywhere inside it), and the matched token `"AND"` of the same
rule string `"a AND b"` (a complete pattern match). -/
theorem c9_tokens_spans_witness :
    ((∃ c ∈ ("++" : String).data, isPySpace c = false) ∧
      (lexMatch ("++" : String).data = some ("++" : String).data.length ∨
        findMatch ("++" : String).data = none)) ∧
    ((∃ c ∈ ("AND" : String).data, isPySpace c = false) ∧
      (lexMatch ("AND" : String).data = some ("AND" : String).data.length ∨
        findMatch ("AND" : String).data = none)) :=
  ⟨c9_tokens_matched_or_unmatched_spans "++" "++" (by decide),
   c9_tokens_matched_or_unmatched_spans "a AND b" "AND" (by decide)⟩
